import Mathlib

/-!
# Verification of the sign-translator commit state machine

Shallow embedding of the decision core of the `sign-translator` repository:
the debounced, majority-vote commit state machine implemented inline in
`App.svelte` (the variant with millisecond-precise timing, kept here as the
authoritative source), together with the `predictFromLandmarks` guard logic
of `src/lib/model.ts`.

Modelling conventions:
* JS `number` timestamps (millisecond values from `Date.now()`) are `ℤ`.
* Classifier confidences (floats in `[0,1]` compared only with `>=`) are `ℚ`.
* The mutable UI-bound variables touched by the handlers form `MachineState`.
* One `hands.onResults` invocation is `classifyTick`; one firing of the
  100 ms `setInterval` callback is `timerPoll`.  The interval handle
  `countdownTimer` is set and cleared exactly together with
  `countdownActive` in every handler, so the existence of the interval is
  represented by `countdownActive` itself.
* The display-only variables `countdownValue` and `countdownStartTime`
  (never read by any control decision) are not part of the state.
-/

namespace SignTranslator

/-- A per-tick classification: a label and a confidence score
(`predictFromLandmarks` result as consumed by `hands.onResults`). -/
structure Classification where
  label : String
  confidence : ℚ
deriving DecidableEq, Repr

/-- The mutable variables of `App.svelte` that the commit state machine
reads and writes.  `countdownActive = true` is the `Dwelling` state of the
spec, `false` is `Idle`. -/
structure MachineState where
  countdownActive : Bool
  signBuffer : List String
  lastAcceptedAction : String
  countdownStartMs : ℤ
  countdownDurationMs : ℤ
deriving DecidableEq, Repr

/-- Operator-settable configuration: `bufferThreshold` (0.6 in the source)
and the dwell duration `trackingTime * 1000` milliseconds. -/
structure Config where
  bufferThreshold : ℚ
  trackingTimeMs : ℤ
deriving DecidableEq, Repr

/-- The defaults of the source: `bufferThreshold = 0.6`,
`trackingTime = 3` seconds. -/
def defaultConfig : Config :=
  { bufferThreshold := 3 / 5, trackingTimeMs := 3000 }

/-- Initial values of the state variables as declared in `App.svelte`. -/
def initialState : MachineState :=
  { countdownActive := false
    signBuffer := []
    lastAcceptedAction := ""
    countdownStartMs := 0
    countdownDurationMs := 3000 }

/-- The JS update `counts[action] = (counts[action] || 0) + 1` on an object whose
(non-index, string) keys iterate in insertion order: the object is an
association list ordered by first insertion of each key. -/
def incrCount (counts : List (String × Nat)) (action : String) :
    List (String × Nat) :=
  match counts with
  | [] => [(action, 1)]
  | (a, c) :: rest =>
      if a = action then (a, c + 1) :: rest
      else (a, c) :: incrCount rest action

/-- The `signBuffer.reduce(...)` of `getMostFrequentAction`: occurrence
counts keyed by label, keys in order of first occurrence. -/
def actionCounts (buf : List String) : List (String × Nat) :=
  buf.foldl incrCount []

/-- The `for (const [action, count] of Object.entries(actionCounts))` loop:
starting from `(signBuffer[0], 0)`, replace the current best whenever a
strictly greater count is seen. -/
def pickMax (p : String × Nat) (cl : List (String × Nat)) : String × Nat :=
  cl.foldl (fun best e => if e.2 > best.2 then e else best) p

/-- Function `getMostFrequentAction` from `App.svelte`: on an empty buffer it
returns `lastAcceptedAction`; otherwise the insertion-ordered strict-max
scan over the counts object. -/
def getMostFrequentAction (signBuffer : List String)
    (lastAcceptedAction : String) : String :=
  if signBuffer.isEmpty then lastAcceptedAction
  else (pickMax (signBuffer.headD ("" : String), 0) (actionCounts signBuffer)).1

/-- Reset of the window, `resetCountdown()`: clear the interval,
deactivate, forget the leading
label, empty the buffer. -/
def resetCountdown (s : MachineState) : MachineState :=
  { s with countdownActive := false
           lastAcceptedAction := ""
           signBuffer := [] }

/-- Function `startCountdown(action, currentConfidence)` called at time `now`
(`Date.now()`).  Mirrors the source line by line: clear the buffer only
when no countdown is active; always push; fast-path return when the same
action is already counting down; on a met threshold (re)start the timer
and remember the action; otherwise reset only when no countdown is
active. -/
def startCountdown (cfg : Config) (s : MachineState) (action : String)
    (currentConfidence : ℚ) (now : ℤ) : MachineState :=
  let s1 := if s.countdownActive then s else { s with signBuffer := [] }
  let s2 := { s1 with signBuffer := s1.signBuffer ++ [action] }
  if s2.countdownActive ∧ action = s2.lastAcceptedAction then s2
  else if cfg.bufferThreshold ≤ currentConfidence then
    { s2 with countdownActive := true
              countdownDurationMs := cfg.trackingTimeMs
              countdownStartMs := now
              lastAcceptedAction := action }
  else if s2.countdownActive then s2 else resetCountdown s2

/-- One `hands.onResults` invocation at time `now`.  `none` collapses the
three branches that call `resetCountdown()` (no hand detected, a `null`
prediction, a prediction error); `some c` is a produced classification,
routed on `confidence >= bufferThreshold` exactly as in the handler. -/
def classifyTick (cfg : Config) (s : MachineState)
    (input : Option Classification) (now : ℤ) : MachineState :=
  match input with
  | none => resetCountdown s
  | some c =>
      if cfg.bufferThreshold ≤ c.confidence then
        startCountdown cfg s c.label c.confidence now
      else if s.countdownActive then
        { s with signBuffer := s.signBuffer ++ [c.label] }
      else resetCountdown s

/-- The value `Math.max(0, countdownDurationMs - (Date.now() - countdownStartMs))`,
the remaining time computed by the interval callback. -/
def remainingMs (s : MachineState) (now : ℤ) : ℤ :=
  max 0 (s.countdownDurationMs - (now - s.countdownStartMs))

/-- One firing of the 100 ms interval callback at time `now`; returns the
updated state and the committed action, if this firing commits.  The
interval exists exactly while `countdownActive`, so a poll of an inactive
state is a no-op. -/
def timerPoll (s : MachineState) (now : ℤ) : MachineState × Option String :=
  if s.countdownActive then
    if remainingMs s now ≤ 0 then
      (({ s with signBuffer := [], countdownActive := false } : MachineState),
        some (getMostFrequentAction s.signBuffer s.lastAcceptedAction))
    else (s, none)
  else (s, none)

/-- A serialized event of the caller's single event loop: either one
classification per camera frame or one timer poll. -/
inductive Tick where
  | classify (input : Option Classification) (now : ℤ)
  | poll (now : ℤ)
deriving DecidableEq, Repr

/-- The timestamp at which a tick happens. -/
def Tick.time : Tick → ℤ
  | .classify _ now => now
  | .poll now => now

/-- One serialized tick: classification ticks never emit; polls may commit. -/
def step (cfg : Config) (s : MachineState) (t : Tick) :
    MachineState × Option String :=
  match t with
  | .classify input now => (classifyTick cfg s input now, none)
  | .poll now => timerPoll s now

/-- Run a list of ticks, collecting the timestamped committed actions. -/
def runOut (cfg : Config) : MachineState → List Tick →
    MachineState × List (ℤ × String)
  | s, [] => (s, [])
  | s, t :: rest =>
      let r := step cfg s t
      let rr := runOut cfg r.1 rest
      (rr.1,
        (match r.2 with
         | some a => [(Tick.time t, a)]
         | none => []) ++ rr.2)

/-! ## Shape lemmas for the per-tick transitions -/

theorem classifyTick_none (cfg : Config) (s : MachineState) (now : ℤ) :
    classifyTick cfg s none now = resetCountdown s := rfl

theorem classifyTick_fastPath (cfg : Config) (s : MachineState) (l : String)
    (c : ℚ) (now : ℤ) (hact : s.countdownActive = true)
    (hl : l = s.lastAcceptedAction) (hc : cfg.bufferThreshold ≤ c) :
    classifyTick cfg s (some ⟨l, c⟩) now =
      { s with signBuffer := s.signBuffer ++ [l] } := by
  simp [classifyTick, startCountdown, hact, hl, hc]

theorem classifyTick_restart (cfg : Config) (s : MachineState) (l : String)
    (c : ℚ) (now : ℤ) (hact : s.countdownActive = true)
    (hl : l ≠ s.lastAcceptedAction) (hc : cfg.bufferThreshold ≤ c) :
    classifyTick cfg s (some ⟨l, c⟩) now =
      { countdownActive := true
        signBuffer := s.signBuffer ++ [l]
        lastAcceptedAction := l
        countdownStartMs := now
        countdownDurationMs := cfg.trackingTimeMs } := by
  simp [classifyTick, startCountdown, hact, hl, hc]

theorem classifyTick_open (cfg : Config) (s : MachineState) (l : String)
    (c : ℚ) (now : ℤ) (hact : s.countdownActive = false)
    (hc : cfg.bufferThreshold ≤ c) :
    classifyTick cfg s (some ⟨l, c⟩) now =
      { countdownActive := true
        signBuffer := [l]
        lastAcceptedAction := l
        countdownStartMs := now
        countdownDurationMs := cfg.trackingTimeMs } := by
  simp [classifyTick, startCountdown, hact, hc]

theorem classifyTick_low_active (cfg : Config) (s : MachineState) (l : String)
    (c : ℚ) (now : ℤ) (hact : s.countdownActive = true)
    (hc : c < cfg.bufferThreshold) :
    classifyTick cfg s (some ⟨l, c⟩) now =
      { s with signBuffer := s.signBuffer ++ [l] } := by
  simp [classifyTick, hact, not_le.mpr hc]

theorem classifyTick_low_idle (cfg : Config) (s : MachineState) (l : String)
    (c : ℚ) (now : ℤ) (hact : s.countdownActive = false)
    (hc : c < cfg.bufferThreshold) :
    classifyTick cfg s (some ⟨l, c⟩) now = resetCountdown s := by
  simp [classifyTick, hact, not_le.mpr hc]

theorem timerPoll_inactive (s : MachineState) (now : ℤ)
    (h : s.countdownActive = false) : timerPoll s now = (s, none) := by
  simp [timerPoll, h]

theorem timerPoll_noCommit (s : MachineState) (now : ℤ)
    (h : s.countdownActive = true)
    (hrem : now - s.countdownStartMs < s.countdownDurationMs) :
    timerPoll s now = (s, none) := by
  have : ¬ remainingMs s now ≤ 0 := by
    simp only [remainingMs]
    omega
  simp [timerPoll, h, this]

theorem timerPoll_commit (s : MachineState) (now : ℤ)
    (h : s.countdownActive = true)
    (hrem : s.countdownDurationMs ≤ now - s.countdownStartMs) :
    timerPoll s now =
      ({ s with signBuffer := [], countdownActive := false },
        some (getMostFrequentAction s.signBuffer s.lastAcceptedAction)) := by
  have : remainingMs s now ≤ 0 := by
    simp only [remainingMs]
    omega
  simp [timerPoll, h, this]

/-! ## The VoteBuffer/Idle invariant (spec §8): buffer empty iff Idle -/

/-- The buffer/state invariant: `signBuffer` is empty exactly when no
commit window is open. -/
def bufferIdleInv (s : MachineState) : Prop :=
  s.signBuffer = [] ↔ s.countdownActive = false

theorem bufferIdleInv_step (cfg : Config) (s : MachineState) (t : Tick)
    (h : bufferIdleInv s) : bufferIdleInv (step cfg s t).1 := by
  unfold bufferIdleInv at h ⊢
  cases t with
  | classify input now =>
      cases input with
      | none => simp [step, classifyTick, resetCountdown]
      | some c =>
          by_cases hc : cfg.bufferThreshold ≤ c.confidence
          · by_cases hact : s.countdownActive = true
            · by_cases hl : c.label = s.lastAcceptedAction
              · rw [show (some c : Option Classification) = some ⟨c.label, c.confidence⟩ from rfl,
                  step, classifyTick_fastPath cfg s c.label c.confidence now hact hl hc]
                simp [hact]
              · rw [show (some c : Option Classification) = some ⟨c.label, c.confidence⟩ from rfl,
                  step, classifyTick_restart cfg s c.label c.confidence now hact hl hc]
                simp
            · rw [show (some c : Option Classification) = some ⟨c.label, c.confidence⟩ from rfl,
                step, classifyTick_open cfg s c.label c.confidence now
                  (by simpa using hact) hc]
              simp
          · have hc' : c.confidence < cfg.bufferThreshold := not_le.mp hc
            by_cases hact : s.countdownActive = true
            · rw [show (some c : Option Classification) = some ⟨c.label, c.confidence⟩ from rfl,
                step, classifyTick_low_active cfg s c.label c.confidence now hact hc']
              simp [hact]
            · rw [show (some c : Option Classification) = some ⟨c.label, c.confidence⟩ from rfl,
                step, classifyTick_low_idle cfg s c.label c.confidence now
                  (by simpa using hact) hc']
              simp [resetCountdown]
  | poll now =>
      by_cases hact : s.countdownActive = true
      · by_cases hrem : s.countdownDurationMs ≤ now - s.countdownStartMs
        · rw [step, timerPoll_commit s now hact hrem]
          simp
        · rw [step, timerPoll_noCommit s now hact (by omega)]
          exact h
      · rw [step, timerPoll_inactive s now (by simpa using hact)]
        exact h

theorem bufferIdleInv_runOut (cfg : Config) (ts : List Tick)
    (s : MachineState) (h : bufferIdleInv s) :
    bufferIdleInv (runOut cfg s ts).1 := by
  induction ts generalizing s with
  | nil => exact h
  | cons t rest ih =>
      simpa [runOut] using ih (step cfg s t).1 (bufferIdleInv_step cfg s t h)

/-! ## Characterizing the majority vote

Proof-side description of the JS counts object: its keys are the labels of
the buffer in order of first occurrence, its values the occurrence counts. -/

/-- Accumulator version of "keys in order of first occurrence". -/
def firstOccurFrom (ks : List String) : List String → List String
  | [] => ks
  | a :: rest => firstOccurFrom (if a ∈ ks then ks else ks ++ [a]) rest

/-- The labels of `buf` in order of first occurrence. -/
def firstOccur (buf : List String) : List String := firstOccurFrom [] buf

theorem firstOccurFrom_append (ks l1 l2 : List String) :
    firstOccurFrom ks (l1 ++ l2) = firstOccurFrom (firstOccurFrom ks l1) l2 := by
  induction l1 generalizing ks with
  | nil => rfl
  | cons a rest ih => simp only [List.cons_append, firstOccurFrom]; exact ih _

theorem mem_firstOccurFrom (ks l : List String) (x : String) :
    x ∈ firstOccurFrom ks l ↔ x ∈ ks ∨ x ∈ l := by
  induction l generalizing ks with
  | nil => simp [firstOccurFrom]
  | cons a rest ih =>
      rw [firstOccurFrom]
      by_cases ha : a ∈ ks
      · rw [if_pos ha, ih, List.mem_cons]
        constructor
        · rintro (h | h)
          · exact Or.inl h
          · exact Or.inr (Or.inr h)
        · rintro (h | h | h)
          · exact Or.inl h
          · exact Or.inl (h ▸ ha)
          · exact Or.inr h
      · rw [if_neg ha, ih, List.mem_append, List.mem_singleton, List.mem_cons]
        tauto

theorem mem_firstOccur (buf : List String) (x : String) :
    x ∈ firstOccur buf ↔ x ∈ buf := by
  simp [firstOccur, mem_firstOccurFrom]

theorem nodup_firstOccurFrom (ks l : List String) (h : ks.Nodup) :
    (firstOccurFrom ks l).Nodup := by
  induction l generalizing ks with
  | nil => exact h
  | cons a rest ih =>
      rw [firstOccurFrom]
      by_cases ha : a ∈ ks
      · rw [if_pos ha]; exact ih ks h
      · rw [if_neg ha]
        refine ih _ (List.nodup_append.mpr ⟨h, List.nodup_singleton a, ?_⟩)
        intro x hx hxa
        rw [List.mem_singleton] at hxa
        exact ha (hxa ▸ hx)

theorem nodup_firstOccur (buf : List String) : (firstOccur buf).Nodup :=
  nodup_firstOccurFrom [] buf List.nodup_nil

theorem firstOccur_append_singleton (pre : List String) (a : String) :
    firstOccur (pre ++ [a]) =
      if a ∈ pre then firstOccur pre else firstOccur pre ++ [a] := by
  rw [firstOccur, firstOccurFrom_append]
  rw [show firstOccurFrom [] pre = firstOccur pre from rfl, firstOccurFrom,
    firstOccurFrom]
  by_cases ha : a ∈ pre
  · rw [if_pos ((mem_firstOccur pre a).mpr ha), if_pos ha]
  · rw [if_neg (fun h => ha ((mem_firstOccur pre a).mp h)), if_neg ha]

/-- The counts object of `getMostFrequentAction`, described structurally. -/
def countsOf (buf : List String) : List (String × Nat) :=
  (firstOccur buf).map fun a => (a, buf.count a)

theorem incrCount_map_mem (l : List String) (f : String → Nat) (a : String)
    (hnd : l.Nodup) (ha : a ∈ l) :
    incrCount (l.map fun x => (x, f x)) a =
      l.map fun x => (x, f x + if x = a then 1 else 0) := by
  induction l with
  | nil => cases ha
  | cons b rest ih =>
      rw [List.map_cons, List.map_cons, incrCount]
      by_cases hb : b = a
      · subst hb
        rw [if_pos rfl, if_pos rfl]
        have hb' : b ∉ rest := (List.nodup_cons.mp hnd).1
        have : rest.map (fun x => (x, f x + if x = b then 1 else 0)) =
            rest.map fun x => (x, f x) := by
          apply List.map_congr_left
          intro x hx
          have hxb : x ≠ b := fun h => hb' (h ▸ hx)
          simp [hxb]
        rw [this]
      · rw [if_neg hb]
        have ha' : a ∈ rest := by
          rcases List.mem_cons.mp ha with h | h
          · exact absurd h.symm hb
          · exact h
        rw [ih (List.nodup_cons.mp hnd).2 ha']
        simp [hb]

theorem incrCount_map_not_mem (l : List String) (f : String → Nat)
    (a : String) (ha : a ∉ l) :
    incrCount (l.map fun x => (x, f x)) a =
      (l.map fun x => (x, f x)) ++ [(a, 1)] := by
  induction l with
  | nil => rfl
  | cons b rest ih =>
      have hb : b ≠ a := fun h => ha (h ▸ List.mem_cons_self b rest)
      rw [List.map_cons, incrCount, if_neg hb, List.cons_append,
        ih (fun h => ha (List.mem_cons_of_mem b h))]

theorem incrCount_countsOf (pre : List String) (a : String) :
    incrCount (countsOf pre) a = countsOf (pre ++ [a]) := by
  by_cases ha : a ∈ pre
  · rw [countsOf, countsOf, firstOccur_append_singleton, if_pos ha,
      incrCount_map_mem (firstOccur pre) _ a (nodup_firstOccur pre)
        ((mem_firstOccur pre a).mpr ha)]
    apply List.map_congr_left
    intro x _
    by_cases hx : x = a
    · subst hx; simp [List.count_append, List.count_singleton']
    · simp [List.count_append, List.count_singleton', hx, Ne.symm hx]
  · rw [countsOf, countsOf, firstOccur_append_singleton, if_neg ha,
      incrCount_map_not_mem (firstOccur pre) _ a
        (fun h => ha ((mem_firstOccur pre a).mp h)),
      List.map_append]
    congr 1
    · apply List.map_congr_left
      intro x hx
      have hxa : x ≠ a := fun h => ha (h ▸ (mem_firstOccur pre x).mp hx)
      simp [List.count_append, List.count_singleton', Ne.symm hxa]
    · simp [List.count_append, List.count_singleton',
        List.count_eq_zero.mpr ha]

theorem foldl_incrCount (buf pre : List String) :
    List.foldl incrCount (countsOf pre) buf = countsOf (pre ++ buf) := by
  induction buf generalizing pre with
  | nil => rw [List.foldl_nil, List.append_nil]
  | cons a rest ih =>
      rw [List.foldl_cons, incrCount_countsOf,
        ih (pre ++ [a]), List.append_assoc, List.singleton_append]

/-- The counts object is exactly: first-occurrence keys with their counts. -/
theorem actionCounts_eq (buf : List String) :
    actionCounts buf = countsOf buf := by
  rw [actionCounts, show ([] : List (String × Nat)) = countsOf [] from rfl,
    foldl_incrCount, List.nil_append]

/-- Proof-side maximum of the counts column of an association list. -/
def msnd (cl : List (String × Nat)) : Nat :=
  cl.foldr (fun e m => max e.2 m) 0

theorem le_msnd (cl : List (String × Nat)) (e : String × Nat) (he : e ∈ cl) :
    e.2 ≤ msnd cl := by
  induction cl with
  | nil => cases he
  | cons f rest ih =>
      have hm : msnd (f :: rest) = max f.2 (msnd rest) := rfl
      rw [hm]
      rcases List.mem_cons.mp he with h | h
      · subst h; exact le_max_left _ _
      · exact le_trans (ih h) (le_max_right _ _)

theorem pickMax_of_le (cl : List (String × Nat)) (p : String × Nat)
    (h : msnd cl ≤ p.2) : pickMax p cl = p := by
  induction cl generalizing p with
  | nil => rfl
  | cons e rest ih =>
      have hm : msnd (e :: rest) = max e.2 (msnd rest) := rfl
      rw [hm, max_le_iff] at h
      rw [pickMax, List.foldl_cons, if_neg (not_lt.mpr h.1)]
      exact ih p h.2

theorem pickMax_eq_find (cl : List (String × Nat)) (p : String × Nat)
    (h : p.2 < msnd cl) :
    cl.find? (fun e => e.2 == msnd cl) = some (pickMax p cl) := by
  induction cl generalizing p with
  | nil => exact absurd h (by simp [msnd])
  | cons e rest ih =>
      have hm : msnd (e :: rest) = max e.2 (msnd rest) := rfl
      rw [pickMax, List.foldl_cons]
      by_cases he : p.2 < e.2
      · rw [if_pos he]
        by_cases hr : msnd rest ≤ e.2
        · have hM : msnd (e :: rest) = e.2 := by rw [hm]; exact max_eq_left hr
          rw [List.find?_cons_of_pos _ (by simp [hM])]
          exact congrArg some (pickMax_of_le rest e hr).symm
        · push_neg at hr
          have hM : msnd (e :: rest) = msnd rest := by
            rw [hm]; exact max_eq_right hr.le
          rw [List.find?_cons_of_neg _ (by simp [hM]; omega), hM]
          exact ih e hr
      · push_neg at he
        rw [if_neg (not_lt.mpr he)]
        have hr : p.2 < msnd rest := by
          rw [hm] at h
          rcases lt_max_iff.mp h with h' | h'
          · exact absurd h' (not_lt.mpr he)
          · exact h'
        have hM : msnd (e :: rest) = msnd rest := by
          rw [hm]; exact max_eq_right (le_trans he hr.le)
        rw [List.find?_cons_of_neg _ (by simp [hM]; omega), hM]
        exact ih p hr

theorem find?_first {α : Type} (R : α → α → Prop) (l : List α)
    (p : α → Bool) (r : α) (hl : l.Pairwise R) (hfind : l.find? p = some r) :
    ∀ x ∈ l, p x = true → r = x ∨ R r x := by
  induction l with
  | nil => cases hfind
  | cons a rest ih =>
      rcases List.pairwise_cons.mp hl with ⟨ha, hrest⟩
      by_cases hp : p a = true
      · rw [List.find?_cons_of_pos _ hp] at hfind
        injection hfind with hfind
        subst hfind
        intro x hx _
        rcases List.mem_cons.mp hx with h | h
        · exact Or.inl h.symm
        · exact Or.inr (ha x h)
      · rw [List.find?_cons_of_neg _ hp] at hfind
        intro x hx hpx
        rcases List.mem_cons.mp hx with h | h
        · exact absurd (h ▸ hpx) hp
        · exact ih hrest hfind x h hpx

theorem pairwise_indexOf_firstOccur (buf : List String) :
    (firstOccur buf).Pairwise
      (fun x y => buf.indexOf x < buf.indexOf y) := by
  induction buf using List.reverseRecOn with
  | nil => exact List.Pairwise.nil
  | append_singleton pre a ih =>
      rw [firstOccur_append_singleton]
      by_cases ha : a ∈ pre
      · rw [if_pos ha]
        refine List.Pairwise.imp_of_mem ?_ ih
        intro x y hx hy hxy
        rwa [List.indexOf_append_of_mem ((mem_firstOccur pre x).mp hx),
          List.indexOf_append_of_mem ((mem_firstOccur pre y).mp hy)]
      · rw [if_neg ha, List.pairwise_append]
        refine ⟨List.Pairwise.imp_of_mem ?_ ih, by simp, ?_⟩
        · intro x y hx hy hxy
          rwa [List.indexOf_append_of_mem ((mem_firstOccur pre x).mp hx),
            List.indexOf_append_of_mem ((mem_firstOccur pre y).mp hy)]
        · intro x hx y hy
          rw [List.mem_singleton] at hy
          subst hy
          have hxp : x ∈ pre := (mem_firstOccur pre x).mp hx
          rw [List.indexOf_append_of_mem hxp,
            List.indexOf_append_of_not_mem ha]
          have h1 : pre.indexOf x < pre.length :=
            List.indexOf_lt_length.mpr hxp
          have h2 : List.indexOf y [y] = 0 := List.indexOf_cons_self y []
          omega

theorem firstOccur_ne_nil (buf : List String) (h : buf ≠ []) :
    firstOccur buf ≠ [] := by
  cases buf with
  | nil => exact absurd rfl h
  | cons b rest =>
      intro hc
      have : b ∈ firstOccur (b :: rest) :=
        (mem_firstOccur _ b).mpr (List.mem_cons_self b rest)
      rw [hc] at this
      cases this

/-- Full characterization of `getMostFrequentAction` on a non-empty buffer:
it returns a label of the buffer of maximal occurrence count, and among the
labels of maximal count it is the one with the earliest first occurrence. -/
theorem getMostFrequentAction_spec (buf : List String) (last : String)
    (h : buf ≠ []) :
    getMostFrequentAction buf last ∈ buf ∧
      (∀ l ∈ buf,
        buf.count l ≤ buf.count (getMostFrequentAction buf last)) ∧
      (∀ l ∈ buf,
        buf.count l = buf.count (getMostFrequentAction buf last) →
          buf.indexOf (getMostFrequentAction buf last) ≤ buf.indexOf l) := by
  have hnil : buf.isEmpty = false := by
    cases buf with
    | nil => exact absurd rfl h
    | cons b rest => rfl
  have hgm : getMostFrequentAction buf last =
      (pickMax (buf.headD ("" : String), 0) (countsOf buf)).1 := by
    rw [getMostFrequentAction, hnil, actionCounts_eq]
    rfl
  set M := msnd (countsOf buf) with hMdef
  have hfo : firstOccur buf ≠ [] := firstOccur_ne_nil buf h
  have hcnil : countsOf buf ≠ [] := by
    intro hc
    exact hfo (List.map_eq_nil_iff.mp (by rwa [countsOf] at hc))
  have hMpos : 0 < M := by
    rcases List.exists_mem_of_ne_nil _ hcnil with ⟨e, he⟩
    have h1 : 1 ≤ e.2 := by
      rw [countsOf] at he
      rcases List.mem_map.mp he with ⟨x, hx, hex⟩
      have hxb : x ∈ buf := (mem_firstOccur buf x).mp hx
      have hpos : 0 < buf.count x := List.count_pos_iff.mpr hxb
      rw [← hex]
      simpa using hpos
    exact lt_of_lt_of_le h1 (le_msnd _ e he)
  have hfind : (countsOf buf).find? (fun e => e.2 == M) =
      some (pickMax (buf.headD ("" : String), 0) (countsOf buf)) :=
    pickMax_eq_find (countsOf buf) (buf.headD ("" : String), 0) hMpos
  set w := pickMax (buf.headD ("" : String), 0) (countsOf buf) with hwdef
  have hwmem : w ∈ countsOf buf := List.mem_of_find?_eq_some hfind
  have hwM : w.2 = M := by
    have := List.find?_some hfind
    simpa using this
  rcases List.mem_map.mp (by rwa [countsOf] at hwmem) with ⟨x, hxfo, hxw⟩
  have hxw' : (x, buf.count x) = w := hxw
  have hrx : getMostFrequentAction buf last = x := by rw [hgm, ← hxw']
  have hxbuf : x ∈ buf := (mem_firstOccur buf x).mp hxfo
  have hcountx : buf.count x = M := by
    have : (x, buf.count x).2 = M := by rw [hxw']; exact hwM
    simpa using this
  refine ⟨hrx ▸ hxbuf, ?_, ?_⟩
  · intro l hl
    have hlmem : (l, buf.count l) ∈ countsOf buf := by
      rw [countsOf]
      exact List.mem_map.mpr ⟨l, (mem_firstOccur buf l).mpr hl, rfl⟩
    have := le_msnd _ _ hlmem
    rw [hrx, hcountx]
    simpa using this
  · intro l hl hcl
    rw [hrx] at hcl ⊢
    have hlmem : (l, buf.count l) ∈ countsOf buf := by
      rw [countsOf]
      exact List.mem_map.mpr ⟨l, (mem_firstOccur buf l).mpr hl, rfl⟩
    have hpl : ((l, buf.count l).2 == M) = true := by
      simp [hcl, hcountx]
    have hpw : (countsOf buf).Pairwise
        (fun e f => buf.indexOf e.1 < buf.indexOf f.1) := by
      rw [countsOf, List.pairwise_map]
      exact pairwise_indexOf_firstOccur buf
    rcases find?_first _ _ _ _ hpw hfind _ hlmem hpl with heq | hlt
    · have : x = l := by
        have := congrArg Prod.fst heq
        rwa [← hxw'] at this
      rw [this]
    · rw [← hxw'] at hlt
      exact le_of_lt hlt

/-- A buffer whose every element is `L` votes `L`. -/
theorem getMostFrequentAction_all (buf : List String) (last L : String)
    (h : buf ≠ []) (hall : ∀ x ∈ buf, x = L) :
    getMostFrequentAction buf last = L :=
  hall _ (getMostFrequentAction_spec buf last h).1

/-! ## Temporal lemmas: commits cannot fire before one dwell duration has
elapsed since the (re)start of the window -/

/-- Invariant for `runOut_noCommit`: while a window is open its start time
is at least `m` and its duration is the configured dwell. -/
def startBound (cfg : Config) (m : ℤ) (s : MachineState) : Prop :=
  s.countdownActive = true →
    m ≤ s.countdownStartMs ∧ s.countdownDurationMs = cfg.trackingTimeMs

theorem classifyTick_startBound (cfg : Config) (m : ℤ) (s : MachineState)
    (input : Option Classification) (now : ℤ) (hnow : m ≤ now)
    (hs : startBound cfg m s) :
    startBound cfg m (classifyTick cfg s input now) := by
  cases input with
  | none => intro hact; simp [classifyTick, resetCountdown] at hact
  | some c =>
      by_cases hc : cfg.bufferThreshold ≤ c.confidence
      · by_cases hact : s.countdownActive = true
        · by_cases hl : c.label = s.lastAcceptedAction
          · rw [show (some c : Option Classification) =
                some ⟨c.label, c.confidence⟩ from rfl,
              classifyTick_fastPath cfg s c.label c.confidence now hact hl hc]
            intro _
            exact hs hact
          · rw [show (some c : Option Classification) =
                some ⟨c.label, c.confidence⟩ from rfl,
              classifyTick_restart cfg s c.label c.confidence now hact hl hc]
            intro _
            exact ⟨hnow, rfl⟩
        · rw [show (some c : Option Classification) =
              some ⟨c.label, c.confidence⟩ from rfl,
            classifyTick_open cfg s c.label c.confidence now
              (by simpa using hact) hc]
          intro _
          exact ⟨hnow, rfl⟩
      · have hc' : c.confidence < cfg.bufferThreshold := not_le.mp hc
        by_cases hact : s.countdownActive = true
        · rw [show (some c : Option Classification) =
              some ⟨c.label, c.confidence⟩ from rfl,
            classifyTick_low_active cfg s c.label c.confidence now hact hc']
          intro _
          exact hs hact
        · rw [show (some c : Option Classification) =
              some ⟨c.label, c.confidence⟩ from rfl,
            classifyTick_low_idle cfg s c.label c.confidence now
              (by simpa using hact) hc']
          intro hact'
          simp [resetCountdown] at hact'

/-- If every tick of `r` happens at least at `m` and strictly less than one
dwell duration after `m`, and any open window started no earlier than `m`,
then no commit is emitted anywhere in `r`. -/
theorem runOut_noCommit (cfg : Config) (m : ℤ) (r : List Tick) :
    ∀ s : MachineState, startBound cfg m s →
    (∀ t ∈ r, m ≤ Tick.time t ∧ Tick.time t < m + cfg.trackingTimeMs) →
    (runOut cfg s r).2 = [] := by
  induction r with
  | nil => intro s _ _; rfl
  | cons t rest ih =>
      intro s hs ht
      obtain ⟨htm, htb⟩ := ht t (List.mem_cons_self t rest)
      have hrest : ∀ t' ∈ rest,
          m ≤ Tick.time t' ∧ Tick.time t' < m + cfg.trackingTimeMs :=
        fun t' h => ht t' (List.mem_cons_of_mem t h)
      cases t with
      | classify input now =>
          simp only [Tick.time] at htm htb
          simpa [runOut, step] using
            ih (classifyTick cfg s input now)
              (classifyTick_startBound cfg m s input now htm hs) hrest
      | poll now =>
          simp only [Tick.time] at htm htb
          by_cases hact : s.countdownActive = true
          · obtain ⟨hsm, hsd⟩ := hs hact
            have hlt : now - s.countdownStartMs < s.countdownDurationMs := by
              rw [hsd]; omega
            simpa [runOut, step, timerPoll_noCommit s now hact hlt] using
              ih s hs hrest
          · simpa [runOut, step,
              timerPoll_inactive s now (by simpa using hact)] using
              ih s hs hrest

/-! ## The single-label dwell run (spec §8's continuous-hold property) -/

/-- The `Dwelling` configuration reached while one label `L` is being held:
window open since `t0` with the configured dwell duration, `L` leading, and
a non-empty all-`L` vote buffer. -/
def dwellAllL (cfg : Config) (L : String) (t0 : ℤ) (s : MachineState) : Prop :=
  s.countdownActive = true ∧ s.countdownStartMs = t0 ∧
    s.countdownDurationMs = cfg.trackingTimeMs ∧
    s.lastAcceptedAction = L ∧ s.signBuffer ≠ [] ∧
    ∀ x ∈ s.signBuffer, x = L

/-- A tick of a continuous hold of label `L`: every classification tick
carries label `L` at or above the threshold. -/
def goodTick (cfg : Config) (L : String) : Tick → Prop
  | .classify none _ => False
  | .classify (some c) _ => c.label = L ∧ cfg.bufferThreshold ≤ c.confidence
  | .poll _ => True

instance (cfg : Config) (L : String) (t : Tick) :
    Decidable (goodTick cfg L t) := by
  cases t with
  | classify input now =>
      cases input with
      | none => exact isFalse (fun h => h)
      | some c => exact instDecidableAnd
  | poll now => exact instDecidableTrue

theorem runOut_dwell (cfg : Config) (L : String) (t0 : ℤ) :
    ∀ (r : List Tick) (s : MachineState), dwellAllL cfg L t0 s →
    (∀ t ∈ r, goodTick cfg L t) →
    (∀ t ∈ r, Tick.time t ≤ t0 + 2 * cfg.trackingTimeMs - 1) →
    List.Pairwise (fun a b => Tick.time a ≤ Tick.time b) r →
    ((runOut cfg s r).2 = [] ∧
        ∀ now, Tick.poll now ∈ r → now < t0 + cfg.trackingTimeMs) ∨
      (∃ tc, t0 + cfg.trackingTimeMs ≤ tc ∧
        (runOut cfg s r).2 = [(tc, L)]) := by
  intro r
  induction r with
  | nil =>
      intro s _ _ _ _
      exact Or.inl ⟨rfl, fun now h => absurd h (List.not_mem_nil _)⟩
  | cons t rest ih =>
      intro s hdw hgood hbound hmono
      obtain ⟨hact, hstart, hdur, hlast, hne, hall⟩ := hdw
      have hgrest : ∀ t' ∈ rest, goodTick cfg L t' :=
        fun t' h => hgood t' (List.mem_cons_of_mem t h)
      have hbrest : ∀ t' ∈ rest,
          Tick.time t' ≤ t0 + 2 * cfg.trackingTimeMs - 1 :=
        fun t' h => hbound t' (List.mem_cons_of_mem t h)
      obtain ⟨hmhead, hmrest⟩ := List.pairwise_cons.mp hmono
      cases t with
      | classify input now =>
          cases input with
          | none => exact absurd (hgood _ (List.mem_cons_self _ _)) (fun h => h)
          | some c =>
              obtain ⟨hlab, hconf⟩ :
                  c.label = L ∧ cfg.bufferThreshold ≤ c.confidence :=
                hgood _ (List.mem_cons_self _ _)
              have hstep : classifyTick cfg s (some c) now =
                  { s with signBuffer := s.signBuffer ++ [c.label] } := by
                rw [show (some c : Option Classification) =
                    some ⟨c.label, c.confidence⟩ from rfl]
                exact classifyTick_fastPath cfg s c.label c.confidence now
                  hact (hlab.trans hlast.symm) hconf
              have hdw' : dwellAllL cfg L t0
                  { s with signBuffer := s.signBuffer ++ [c.label] } := by
                refine ⟨hact, hstart, hdur, hlast, by simp, ?_⟩
                intro x hx
                rcases List.mem_append.mp hx with h | h
                · exact hall x h
                · rw [List.mem_singleton] at h
                  exact h.trans hlab
              rcases ih _ hdw' hgrest hbrest hmrest with ⟨hout, hpolls⟩ | hcommit
              · refine Or.inl ⟨?_, ?_⟩
                · simp [runOut, step, hstep, hout]
                · intro now' hmem
                  rcases List.mem_cons.mp hmem with h | h
                  · cases h
                  · exact hpolls now' h
              · rcases hcommit with ⟨tc, htc, hout⟩
                exact Or.inr ⟨tc, htc, by simp [runOut, step, hstep, hout]⟩
      | poll now =>
          by_cases hearly : now < t0 + cfg.trackingTimeMs
          · have hstep : timerPoll s now = (s, none) := by
              refine timerPoll_noCommit s now hact ?_
              rw [hstart, hdur]; omega
            rcases ih s ⟨hact, hstart, hdur, hlast, hne, hall⟩
                hgrest hbrest hmrest with ⟨hout, hpolls⟩ | hcommit
            · refine Or.inl ⟨by simp [runOut, step, hstep, hout], ?_⟩
              intro now' hmem
              rcases List.mem_cons.mp hmem with h | h
              · injection h with h; omega
              · exact hpolls now' h
            · rcases hcommit with ⟨tc, htc, hout⟩
              exact Or.inr ⟨tc, htc, by simp [runOut, step, hstep, hout]⟩
          · push_neg at hearly
            have hstep : timerPoll s now =
                ({ s with signBuffer := [], countdownActive := false },
                  some (getMostFrequentAction s.signBuffer
                    s.lastAcceptedAction)) := by
              refine timerPoll_commit s now hact ?_
              rw [hstart, hdur]; omega
            have hmaj : getMostFrequentAction s.signBuffer
                s.lastAcceptedAction = L :=
              getMostFrequentAction_all s.signBuffer s.lastAcceptedAction L
                hne hall
            have hrest0 : (runOut cfg
                { s with signBuffer := [], countdownActive := false }
                rest).2 = [] := by
              refine runOut_noCommit cfg (t0 + cfg.trackingTimeMs) rest _
                ?_ ?_
              · intro habs
                simp at habs
              · intro t' ht'
                refine ⟨le_trans hearly (hmhead t' ht'), ?_⟩
                have := hbrest t' ht'
                omega
            refine Or.inr ⟨now, hearly, ?_⟩
            simp [runOut, step, hstep, hmaj, hrest0, Tick.time]

/-! ## Embedding of `predictFromLandmarks` (`src/lib/model.ts`) -/

/-- A MediaPipe hand landmark (the `x`, `y`, `z` floats as `ℚ`). -/
structure HandLandmark where
  x : ℚ
  y : ℚ
  z : ℚ
deriving DecidableEq, Repr

/-- The `PredictionResult` record of `model.ts`. -/
structure PredictionResult where
  letter : String
  confidence : ℚ
  isSpecialAction : Bool
deriving DecidableEq, Repr

/-- The label map initialized by `loadModel`: the 26 letters followed by
`DELETE` (index 26) and `SPACE` (index 27). -/
def labelMap : List String :=
  ("ABCDEFGHIJKLMNOPQRSTUVWXYZ".data.map fun c => String.mk [c]) ++
    ["DELETE", "SPACE"]

/-- The module-level mutable state of `model.ts`: the `isModelLoaded` flag
and the `model` handle (`null` until loaded), the latter abstracted as the
function taking the flat 63-value input row to the row of output
confidences (`model.predict` followed by `arraySync()[0]`). -/
structure ModelState where
  isModelLoaded : Bool
  model : Option (List ℚ → List ℚ)

/-- The spread maximum `Math.max(...confidences)`; `none` stands for the
`-Infinity` of the
empty spread. -/
def listMax : List ℚ → Option ℚ
  | [] => none
  | a :: rest =>
      some (match listMax rest with
            | none => a
            | some m => max a m)

/-- The index `confidences.indexOf(Math.max(...confidences))`: the first
occurrence of the maximum, `-1` on an empty row (where the maximum
`-Infinity` occurs nowhere). -/
def predictedIndexOf (confidences : List ℚ) : ℤ :=
  match listMax confidences with
  | none => -1
  | some m => (confidences.indexOf m : ℤ)

/-- Function `predictFromLandmarks` of `model.ts`, lines 119-182.  Every early
-return path of the source yields `none`; the body's `try/catch` also
returns `null` instead of throwing, so the embedding is a total function
into `Option`. -/
def predictFromLandmarks (ms : ModelState)
    (landmarks : Option (List HandLandmark)) : Option PredictionResult :=
  if ms.isModelLoaded = false then none
  else
    match ms.model with
    | none => none
    | some mdl =>
        match landmarks with
        | none => none
        | some lms =>
            if lms.length ≠ 21 then none
            else
              let inputData := lms.flatMap fun p => [p.x, p.y, p.z]
              if inputData.length ≠ 63 then none
              else
                let confidences := mdl inputData
                let predictedIndex := predictedIndexOf confidences
                if predictedIndex < 0 ∨
                    (labelMap.length : ℤ) ≤ predictedIndex then none
                else
                  let letter := labelMap.getD predictedIndex.toNat ("" : String)
                  some { letter := letter
                         confidence := (listMax confidences).getD 0
                         isSpecialAction :=
                           letter == "DELETE" || letter == "SPACE" }

/-! ## Spec-side reference notion for the majority tie-break -/

/-- Modelled from the claim's words: the buffer-wide maximum occurrence
count of any label. -/
def maxLabelCount (buf : List String) : Nat :=
  (buf.map fun a => buf.count a).foldr max 0

/-- Helper for `firstToReachMaxCount`: scan with the already-seen prefix. -/
def firstToReachMaxAux (maxC : Nat) (seen : List String) :
    List String → Option String
  | [] => none
  | a :: rest =>
      if (seen ++ [a]).count a = maxC then some a
      else firstToReachMaxAux maxC (seen ++ [a]) rest

/-- Modelled from the claim's words ("the first label to reach the maximum
count"): scanning the buffer in insertion order with running occurrence
counts, the first label whose running count attains the buffer-wide
maximum count. -/
def firstToReachMaxCount (buf : List String) : Option String :=
  firstToReachMaxAux (maxLabelCount buf) [] buf

/-- Flattening 21 landmarks produces three numbers per landmark. -/
theorem length_flatMap_xyz (lms : List HandLandmark) :
    (lms.flatMap fun p => [p.x, p.y, p.z]).length = 3 * lms.length := by
  induction lms with
  | nil => rfl
  | cons p rest ih =>
      simp only [List.flatMap_cons, List.length_append, List.length_cons,
        List.length_nil, ih]
      omega

/-! ## The claims -/

/-- C1: the claim states that in Dwelling, a tick whose label differs from
`leadingLabel` with confidence ≥ threshold clears the VoteBuffer and pushes
the new label as its only element (besides restarting the timer and
updating `leadingLabel`).  The code clears the buffer only
`if (!countdownActive)` — contradicting its own comment ("Reset buffer if
countdown is not active or if it's a different action starting the
countdown") — so the old votes are kept: after opening with ("A", 0.9) at
t = 0, a ("B", 0.9) tick at t = 500 leaves signBuffer = ["A", "B"], not
["B"].  The remaining parts of the transition (timer restarted at t = 500
with the full 3000 ms, leadingLabel = "B", still Dwelling) do hold. -/
theorem C1_restart_keeps_old_votes :
    classifyTick defaultConfig
      (classifyTick defaultConfig initialState (some ⟨"A", 9/10⟩) 0)
      (some ⟨"B", 9/10⟩) 500 =
    { countdownActive := true
      signBuffer := ["A", "B"]
      lastAcceptedAction := "B"
      countdownStartMs := 500
      countdownDurationMs := 3000 } := by
  rw [classifyTick_open defaultConfig initialState "A" (9/10) 0 rfl
    (by norm_num [defaultConfig])]
  rw [classifyTick_restart defaultConfig _ "B" (9/10) 500 rfl
    (by decide) (by norm_num [defaultConfig])]
  rfl

/-- C2: for every tick sequence from the initial state, the VoteBuffer
(`signBuffer`) is empty iff the machine is Idle (`countdownActive =
false`): non-empty throughout every open commit window, emptied exactly
when the window closes by commit or by abort. -/
theorem C2_buffer_empty_iff_idle (cfg : Config) (ts : List Tick) :
    (runOut cfg initialState ts).1.signBuffer = [] ↔
      (runOut cfg initialState ts).1.countdownActive = false :=
  bufferIdleInv_runOut cfg ts initialState
    (by simp [initialState, bufferIdleInv])

/-- C3 counterexample: the claim asserts that "earliest first occurrence"
tie-breaking is equivalently "the first label to reach the maximum count
wins".  It is not: on buffer ["B", "A", "A", "B"] both labels have count
2; the first label whose running count reaches 2 is "A" (at the third
element), yet `getMostFrequentAction` returns "B", the label of earliest
first occurrence. -/
theorem C3_counterexample :
    getMostFrequentAction ["B", "A", "A", "B"] "" = "B" ∧
      firstToReachMaxCount ["B", "A", "A", "B"] = some "A" ∧
      (["B", "A", "A", "B"] : List String).count "A" = 2 ∧
      (["B", "A", "A", "B"] : List String).count "B" = 2 := by decide

/-- C3 (amended): for every non-empty VoteBuffer, majority() returns a
label of the buffer with the highest occurrence count, and ties are broken
by earliest first occurrence in insertion order (not alphabetical, not
last-seen, and not "first to reach the maximum count" — see the
counterexample); in particular, for buffer contents [A, B, A, B] it
returns A. -/
theorem C3_majority_earliest_first_occurrence (buf : List String)
    (last : String) (h : buf ≠ []) :
    getMostFrequentAction buf last ∈ buf ∧
      (∀ l ∈ buf,
        buf.count l ≤ buf.count (getMostFrequentAction buf last)) ∧
      (∀ l ∈ buf,
        buf.count l = buf.count (getMostFrequentAction buf last) →
          buf.indexOf (getMostFrequentAction buf last) ≤ buf.indexOf l) ∧
      getMostFrequentAction ["A", "B", "A", "B"] "" = "A" := by
  obtain ⟨h1, h2, h3⟩ := getMostFrequentAction_spec buf last h
  exact ⟨h1, h2, h3, by decide⟩

/-- Witness for C3 at the concrete buffer ["A", "B", "A", "B"]. -/
theorem C3_majority_witness :
    (["A", "B", "A", "B"] : List String) ≠ [] ∧
      getMostFrequentAction ["A", "B", "A", "B"] "" = "A" :=
  ⟨by decide,
    (C3_majority_earliest_first_occurrence ["A", "B", "A", "B"] ""
      (by decide)).2.2.2⟩

/-- C4: starting from Idle, if label L is submitted with confidence ≥
threshold on every classification tick, the run stays within the commit
horizon (every tick strictly before `t0 + 2·dwell`), and some timer poll
happens at or after `t0 + dwell`, then the run emits exactly one committed
action, that action is L, and its timestamp is at or after
`t0 + dwellDurationMs` — never before. -/
theorem C4_single_label_commits_once (cfg : Config) (L : String) (c0 : ℚ)
    (t0 : ℤ) (rest : List Tick)
    (hc0 : cfg.bufferThreshold ≤ c0)
    (hgood : ∀ t ∈ rest, goodTick cfg L t)
    (hbound : ∀ t ∈ rest, Tick.time t ≤ t0 + 2 * cfg.trackingTimeMs - 1)
    (hmono : List.Pairwise (fun a b => Tick.time a ≤ Tick.time b)
      (Tick.classify (some ⟨L, c0⟩) t0 :: rest))
    (hpoll : ∃ now, Tick.poll now ∈ rest ∧ t0 + cfg.trackingTimeMs ≤ now) :
    ∃ tc, t0 + cfg.trackingTimeMs ≤ tc ∧
      (runOut cfg initialState
        (Tick.classify (some ⟨L, c0⟩) t0 :: rest)).2 = [(tc, L)] := by
  have hopen : classifyTick cfg initialState (some ⟨L, c0⟩) t0 =
      { countdownActive := true, signBuffer := [L],
        lastAcceptedAction := L, countdownStartMs := t0,
        countdownDurationMs := cfg.trackingTimeMs } :=
    classifyTick_open cfg initialState L c0 t0 rfl hc0
  have hdw : dwellAllL cfg L t0
      { countdownActive := true, signBuffer := [L],
        lastAcceptedAction := L, countdownStartMs := t0,
        countdownDurationMs := cfg.trackingTimeMs } :=
    ⟨rfl, rfl, rfl, rfl, by simp, by simp⟩
  rcases runOut_dwell cfg L t0 rest _ hdw hgood hbound
      (List.pairwise_cons.mp hmono).2 with ⟨hout, hpolls⟩ | ⟨tc, htc, hout⟩
  · rcases hpoll with ⟨now, hmem, hge⟩
    exact absurd (hpolls now hmem) (by omega)
  · exact ⟨tc, htc, by simp [runOut, step, hopen, hout]⟩

/-- Witness for C4: "A" held from t = 0 through classification ticks and
polls; exactly one commit, ("A") at t = 3000 ≥ 0 + 3000. -/
theorem C4_witness :
    ∃ tc, (0 : ℤ) + defaultConfig.trackingTimeMs ≤ tc ∧
      (runOut defaultConfig initialState
        (Tick.classify (some ⟨"A", 9/10⟩) 0 ::
          [Tick.classify (some ⟨"A", 7/10⟩) 1000, Tick.poll 1500,
            Tick.classify (some ⟨"A", 4/5⟩) 2000, Tick.poll 3000,
            Tick.poll 3100])).2 = [(tc, "A")] := by
  apply C4_single_label_commits_once
  · norm_num [defaultConfig]
  · intro t ht
    fin_cases ht
    · exact ⟨rfl, by norm_num [defaultConfig]⟩
    · exact trivial
    · exact ⟨rfl, by norm_num [defaultConfig]⟩
    · exact trivial
    · exact trivial
  · intro t ht
    fin_cases ht <;> norm_num [Tick.time, defaultConfig]
  · norm_num [List.pairwise_cons, Tick.time]
  · exact ⟨3000, by simp, by norm_num [defaultConfig]⟩

/-- C5: while a window is open, a tick carrying a different label L2 with
confidence ≥ threshold restarts the window at the moment `tsw` of the
switch — `leadingLabel` becomes L2, the timer origin becomes `tsw` with
the full dwell duration — and no commit is emitted by any subsequent ticks
happening before `tsw + dwellDurationMs`.  (Instantiated by the witness to
the spec scenario: threshold 0.6, dwell 3000 ms, ("A", 0.9) at t = 0,
("B", 0.9) at t = 500, no commit before t = 3500.) -/
theorem C5_switch_restarts_dwell (cfg : Config) (s : MachineState)
    (L2 : String) (c : ℚ) (tsw : ℤ) (more : List Tick)
    (hact : s.countdownActive = true)
    (hne : L2 ≠ s.lastAcceptedAction)
    (hc : cfg.bufferThreshold ≤ c)
    (hmore : ∀ t ∈ more, tsw ≤ Tick.time t ∧
      Tick.time t < tsw + cfg.trackingTimeMs) :
    (classifyTick cfg s (some ⟨L2, c⟩) tsw).countdownActive = true ∧
      (classifyTick cfg s (some ⟨L2, c⟩) tsw).lastAcceptedAction = L2 ∧
      (classifyTick cfg s (some ⟨L2, c⟩) tsw).countdownStartMs = tsw ∧
      (classifyTick cfg s (some ⟨L2, c⟩) tsw).countdownDurationMs =
        cfg.trackingTimeMs ∧
      (runOut cfg (classifyTick cfg s (some ⟨L2, c⟩) tsw) more).2 = [] := by
  rw [classifyTick_restart cfg s L2 c tsw hact hne hc]
  exact ⟨rfl, rfl, rfl, rfl,
    runOut_noCommit cfg tsw more _ (fun _ => ⟨le_refl tsw, rfl⟩) hmore⟩

/-- Witness for C5: the spec scenario — ("A", 0.9) at t = 0 opens a
window; ("B", 0.9) at t = 500 restarts it with leadingLabel "B" and timer
origin 500; polls at t = 600, 3000 and 3499 (all < 3500) emit nothing. -/
theorem C5_witness :
    (classifyTick defaultConfig
        (classifyTick defaultConfig initialState (some ⟨"A", 9/10⟩) 0)
        (some ⟨"B", 9/10⟩) 500).lastAcceptedAction = "B" ∧
      (classifyTick defaultConfig
        (classifyTick defaultConfig initialState (some ⟨"A", 9/10⟩) 0)
        (some ⟨"B", 9/10⟩) 500).countdownStartMs = 500 ∧
      (runOut defaultConfig
        (classifyTick defaultConfig
          (classifyTick defaultConfig initialState (some ⟨"A", 9/10⟩) 0)
          (some ⟨"B", 9/10⟩) 500)
        [Tick.poll 600, Tick.poll 3000, Tick.poll 3499]).2 = [] := by
  have h0 := classifyTick_open defaultConfig initialState "A" (9/10) 0 rfl
    (by norm_num [defaultConfig])
  have h5 := C5_switch_restarts_dwell defaultConfig
    (classifyTick defaultConfig initialState (some ⟨"A", 9/10⟩) 0)
    "B" (9/10) 500 [Tick.poll 600, Tick.poll 3000, Tick.poll 3499]
    (by rw [h0]) (by rw [h0]; decide) (by norm_num [defaultConfig])
    (by intro t ht; fin_cases ht <;> norm_num [Tick.time, defaultConfig])
  exact ⟨h5.2.1, h5.2.2.1, h5.2.2.2.2⟩

/-- C6: while Dwelling, a present classification with confidence below the
threshold pushes its label onto the VoteBuffer (so it still counts toward
the eventual majority) and changes nothing else: the window is not
aborted, the machine stays Dwelling, and the timer fields are untouched. -/
theorem C6_low_confidence_still_votes (cfg : Config) (s : MachineState)
    (l : String) (c : ℚ) (now : ℤ) (hact : s.countdownActive = true)
    (hc : c < cfg.bufferThreshold) :
    classifyTick cfg s (some ⟨l, c⟩) now =
      { s with signBuffer := s.signBuffer ++ [l] } :=
  classifyTick_low_active cfg s l c now hact hc

/-- Witness for C6: a low-confidence "C" tick while Dwelling on "A" only
appends to the buffer. -/
theorem C6_witness :
    classifyTick defaultConfig
      { countdownActive := true, signBuffer := ["A"],
        lastAcceptedAction := "A", countdownStartMs := 0,
        countdownDurationMs := 3000 } (some ⟨"C", 1/2⟩) 700 =
    { countdownActive := true, signBuffer := ["A", "C"],
      lastAcceptedAction := "A", countdownStartMs := 0,
      countdownDurationMs := 3000 } := by
  rw [C6_low_confidence_still_votes defaultConfig _ "C" (1/2) 700 rfl
    (by norm_num [defaultConfig])]
  rfl

/-- C7: while Dwelling, a tick with no classification at all (hand lost)
aborts the window: the VoteBuffer is cleared, the countdown is cancelled
(back to Idle, leading label forgotten), and no action is emitted on that
tick. -/
theorem C7_hand_lost_aborts (cfg : Config) (s : MachineState) (now : ℤ)
    (_hact : s.countdownActive = true) :
    step cfg s (Tick.classify none now) =
      ({ s with
          countdownActive := false, lastAcceptedAction := "",
          signBuffer := [] }, none) := rfl

/-- Witness for C7 at a concrete Dwelling state. -/
theorem C7_witness :
    step defaultConfig
      { countdownActive := true, signBuffer := ["A", "A"],
        lastAcceptedAction := "A", countdownStartMs := 0,
        countdownDurationMs := 3000 } (Tick.classify none 1200) =
      ({ countdownActive := false, signBuffer := [],
          lastAcceptedAction := "", countdownStartMs := 0,
          countdownDurationMs := 3000 }, none) :=
  C7_hand_lost_aborts defaultConfig _ 1200 rfl

/-- C8 counterexample: the claim says an empty-buffer majority request is
treated as "abort window", emitting nothing.  In the code it is not: with
an (out-of-contract) empty VoteBuffer in an open expired window,
`getMostFrequentAction` returns the stored `lastAcceptedAction` and the
poll commits it — an action ("A") is emitted. -/
theorem C8_counterexample :
    (timerPoll
      { countdownActive := true, signBuffer := [],
        lastAcceptedAction := "A", countdownStartMs := 0,
        countdownDurationMs := 3000 } 3000).2 = some "A" := by decide

/-- C8 (amended): if majority() is requested while the VoteBuffer is
empty, `getMostFrequentAction` returns the stored `lastAcceptedAction`,
and a timer expiry in such a state commits that action upward — it does
not abort the window with nothing emitted.  (Normal operation never
reaches this case: the buffer is non-empty whenever a window is open.) -/
theorem C8_empty_majority_returns_last (s : MachineState) (now : ℤ)
    (hact : s.countdownActive = true) (hbuf : s.signBuffer = [])
    (hel : s.countdownDurationMs ≤ now - s.countdownStartMs) :
    getMostFrequentAction s.signBuffer s.lastAcceptedAction =
        s.lastAcceptedAction ∧
      (timerPoll s now).2 = some s.lastAcceptedAction := by
  have h1 : getMostFrequentAction s.signBuffer s.lastAcceptedAction =
      s.lastAcceptedAction := by rw [hbuf]; rfl
  rw [timerPoll_commit s now hact hel]
  exact ⟨h1, by simp [h1]⟩

/-- Witness for C8 at a concrete expired empty-buffer window. -/
theorem C8_witness :
    getMostFrequentAction ([] : List String) "Z" = "Z" ∧
      (timerPoll
        { countdownActive := true, signBuffer := [],
          lastAcceptedAction := "Z", countdownStartMs := 100,
          countdownDurationMs := 500 } 700).2 = some "Z" :=
  C8_empty_majority_returns_last
    { countdownActive := true, signBuffer := [],
      lastAcceptedAction := "Z", countdownStartMs := 100,
      countdownDurationMs := 500 } 700 rfl rfl (by norm_num)

/-- C9: for every timestamp `now` — including one earlier than the
recorded origin (clock moving backward) — the remaining time equals
`max 0 (durationMs - (now - origin))`, is never negative, and the poll
commits only once `now - origin ≥ durationMs`, never early; in particular
a backward clock (`now < origin`) never fires the commit. -/
theorem C9_timer_clamped_never_early (s : MachineState) (now : ℤ)
    (_hD : 0 < s.countdownDurationMs) :
    remainingMs s now =
        max 0 (s.countdownDurationMs - (now - s.countdownStartMs)) ∧
      0 ≤ remainingMs s now ∧
      ((timerPoll s now).2.isSome = true →
        s.countdownDurationMs ≤ now - s.countdownStartMs) ∧
      (now < s.countdownStartMs → (timerPoll s now).2 = none) := by
  refine ⟨rfl, le_max_left 0 _, ?_, ?_⟩
  · intro hsome
    by_cases hact : s.countdownActive = true
    · by_cases hel : s.countdownDurationMs ≤ now - s.countdownStartMs
      · exact hel
      · rw [timerPoll_noCommit s now hact (by omega)] at hsome
        simp at hsome
    · rw [timerPoll_inactive s now (by simpa using hact)] at hsome
      simp at hsome
  · intro hlt
    by_cases hact : s.countdownActive = true
    · rw [timerPoll_noCommit s now hact (by omega)]
    · rw [timerPoll_inactive s now (by simpa using hact)]

/-- Witness for C9 with the clock 600 ms behind the window origin. -/
theorem C9_witness :
    0 ≤ remainingMs
      { countdownActive := true, signBuffer := ["A"],
        lastAcceptedAction := "A", countdownStartMs := 1000,
        countdownDurationMs := 3000 } 400 ∧
      (timerPoll
        { countdownActive := true, signBuffer := ["A"],
          lastAcceptedAction := "A", countdownStartMs := 1000,
          countdownDurationMs := 3000 } 400).2 = none :=
  ⟨(C9_timer_clamped_never_early
      { countdownActive := true, signBuffer := ["A"],
        lastAcceptedAction := "A", countdownStartMs := 1000,
        countdownDurationMs := 3000 } 400 (by norm_num)).2.1,
    (C9_timer_clamped_never_early
      { countdownActive := true, signBuffer := ["A"],
        lastAcceptedAction := "A", countdownStartMs := 1000,
        countdownDurationMs := 3000 } 400 (by norm_num)).2.2.2
      (by norm_num)⟩

/-- C10: `predictFromLandmarks` returns `none` (rather than throwing) when
the model is not loaded, when the model handle is absent, when the
landmark list is absent or its length is not exactly 21, or when the
predicted class index falls outside the label map; and a non-`none` result
forces a loaded model, a present 21-landmark input and an in-range
predicted index. -/
theorem C10_predict_guards (ms : ModelState)
    (landmarks : Option (List HandLandmark)) :
    (ms.isModelLoaded = false → predictFromLandmarks ms landmarks = none) ∧
      (ms.model = none → predictFromLandmarks ms landmarks = none) ∧
      (landmarks = none → predictFromLandmarks ms landmarks = none) ∧
      (∀ lms, landmarks = some lms → lms.length ≠ 21 →
        predictFromLandmarks ms landmarks = none) ∧
      (∀ mdl lms, ms.model = some mdl → landmarks = some lms →
        (predictedIndexOf (mdl (lms.flatMap fun p => [p.x, p.y, p.z])) < 0 ∨
          (labelMap.length : ℤ) ≤
            predictedIndexOf (mdl (lms.flatMap fun p => [p.x, p.y, p.z]))) →
        predictFromLandmarks ms landmarks = none) ∧
      (∀ r, predictFromLandmarks ms landmarks = some r →
        ms.isModelLoaded = true ∧
          ∃ lms, landmarks = some lms ∧ lms.length = 21 ∧
            ∃ mdl, ms.model = some mdl ∧
              0 ≤ predictedIndexOf
                (mdl (lms.flatMap fun p => [p.x, p.y, p.z])) ∧
              predictedIndexOf
                (mdl (lms.flatMap fun p => [p.x, p.y, p.z])) <
                  (labelMap.length : ℤ)) := by
  obtain ⟨loaded, model⟩ := ms
  cases loaded with
  | false =>
      have hnone : predictFromLandmarks ⟨false, model⟩ landmarks = none := rfl
      refine ⟨fun _ => hnone, fun _ => hnone, fun _ => hnone,
        fun _ _ _ => hnone, fun _ _ _ _ _ => hnone, ?_⟩
      intro r hr
      rw [hnone] at hr
      exact Option.noConfusion hr
  | true =>
      cases model with
      | none =>
          have hnone :
              predictFromLandmarks ⟨true, none⟩ landmarks = none := by
            cases landmarks <;> rfl
          refine ⟨fun h => Bool.noConfusion h, fun _ => hnone,
            fun _ => hnone, fun _ _ _ => hnone, fun _ _ hm _ _ =>
              Option.noConfusion hm, ?_⟩
          intro r hr
          rw [hnone] at hr
          exact Option.noConfusion hr
      | some mdl =>
          cases landmarks with
          | none =>
              have hnone :
                  predictFromLandmarks ⟨true, some mdl⟩ none = none := rfl
              refine ⟨fun h => Bool.noConfusion h, fun h =>
                Option.noConfusion h, fun _ => hnone,
                fun _ h _ => Option.noConfusion h,
                fun _ _ _ h _ => Option.noConfusion h, ?_⟩
              intro r hr
              rw [hnone] at hr
              exact Option.noConfusion hr
          | some lms =>
              by_cases hlen : lms.length = 21
              · have hlen63 :
                    (lms.flatMap fun p => [p.x, p.y, p.z]).length = 63 := by
                  rw [length_flatMap_xyz, hlen]
                by_cases hidx :
                    predictedIndexOf
                      (mdl (lms.flatMap fun p => [p.x, p.y, p.z])) < 0 ∨
                    (labelMap.length : ℤ) ≤
                      predictedIndexOf
                        (mdl (lms.flatMap fun p => [p.x, p.y, p.z]))
                · have hnone :
                      predictFromLandmarks ⟨true, some mdl⟩ (some lms) =
                        none := by
                    simp only [predictFromLandmarks]
                    rw [if_neg (by simp)]
                    simp only [hlen, hlen63]
                    rw [if_neg (by simp), if_neg (by simp),
                      if_pos hidx]
                  refine ⟨fun h => Bool.noConfusion h,
                    fun h => Option.noConfusion h,
                    fun h => Option.noConfusion h,
                    fun _ _ _ => hnone, fun _ _ _ _ _ => hnone, ?_⟩
                  intro r hr
                  rw [hnone] at hr
                  exact Option.noConfusion hr
                · refine ⟨fun h => Bool.noConfusion h,
                    fun h => Option.noConfusion h,
                    fun h => Option.noConfusion h, ?_, ?_, ?_⟩
                  · intro lms' h hlen'
                    injection h with h
                    exact absurd (h ▸ hlen) hlen'
                  · intro mdl' lms' hm hl hidx'
                    injection hm with hm
                    injection hl with hl
                    exact absurd (hm ▸ hl ▸ hidx') hidx
                  · intro r _
                    push_neg at hidx
                    exact ⟨rfl, lms, rfl, hlen, mdl, rfl, hidx.1, hidx.2⟩
              · have hnone :
                    predictFromLandmarks ⟨true, some mdl⟩ (some lms) =
                      none := by
                  simp only [predictFromLandmarks]
                  rw [if_neg (by simp)]
                  rw [if_pos hlen]
                refine ⟨fun h => Bool.noConfusion h,
                  fun h => Option.noConfusion h,
                  fun h => Option.noConfusion h,
                  fun _ _ _ => hnone, fun _ _ _ _ _ => hnone, ?_⟩
                intro r hr
                rw [hnone] at hr
                exact Option.noConfusion hr

/-- Witness for C10: an unloaded model yields `none`; a constant row whose
maximum sits at index 27 (`SPACE`) yields a result, and the guards solved
at that input. -/
theorem C10_witness :
    predictFromLandmarks ⟨false, none⟩ none = none ∧
      predictFromLandmarks ⟨true, some (fun _ => [])⟩ none = none ∧
      predictFromLandmarks ⟨true, some (fun _ => [])⟩ (some []) = none :=
  ⟨(C10_predict_guards ⟨false, none⟩ none).1 rfl,
    (C10_predict_guards ⟨true, some (fun _ => [])⟩ none).2.2.1 rfl,
    (C10_predict_guards ⟨true, some (fun _ => [])⟩ (some [])).2.2.2.1
      [] rfl (by decide)⟩

end SignTranslator
